import Mathlib

/-!
Verification of the compile-time duplicate-detection utility in
`cc/core/template_util.h` (namespace `crypto::tink::internal`).

The C++ code defines two class templates over variadic type lists:

* `OccursInList<TestType, std::tuple<...>>` — decides whether `TestType`
  occurs in the tuple; the empty tuple gives `false`, a non-empty tuple
  gives `is_same<TestType, First> ∨ OccursInList<TestType, tuple<List...>>`.
* `HasDuplicates<Args...>` — decides whether the list has a duplicate; the
  empty list gives `false`, a non-empty list gives
  `OccursInList<First, tuple<List...>> ∨ HasDuplicates<List...>`.

We embed type tokens as the elements of an arbitrary type `α` with
decidable equality (nominal identity of types is opaque decidable
equality), and a variadic type list / `std::tuple` as a `List α`.
-/

/-- Embedding of `OccursInList<TestType, Tuple>::value`.
The empty-tuple specialisation yields `false`; the non-empty-tuple
specialisation yields the disjunction of `std::is_same<TestType, First>`
and the recursive instantiation on the rest of the list. -/
def OccursInList {α : Type} [DecidableEq α] (testType : α) : List α → Bool
  | [] => false
  | first :: rest => decide (testType = first) || OccursInList testType rest

/-- Embedding of `HasDuplicates<Args...>::value`.
The empty specialisation yields `false`; the non-empty specialisation
yields the disjunction of `OccursInList<First, tuple<List...>>` and the
recursive instantiation `HasDuplicates<List...>`. -/
def HasDuplicates {α : Type} [DecidableEq α] : List α → Bool
  | [] => false
  | first :: rest => OccursInList first rest || HasDuplicates rest

/-- Fuel-indexed variant of `OccursInList`: each recursive template
instantiation consumes one unit of fuel, and the computation reports
`none` when the recursion would need more levels than the fuel allows.
Used to state that the recursion is structural and bounded by the list
length. -/
def OccursInListFuel {α : Type} [DecidableEq α] : Nat → α → List α → Option Bool
  | _, _, [] => some false
  | 0, _, _ :: _ => none
  | fuel + 1, testType, first :: rest =>
      (OccursInListFuel fuel testType rest).map
        (fun b => decide (testType = first) || b)

/-- Fuel-indexed variant of `HasDuplicates`, analogous to
`OccursInListFuel`: one unit of fuel per recursion level into the tail. -/
def HasDuplicatesFuel {α : Type} [DecidableEq α] : Nat → List α → Option Bool
  | _, [] => some false
  | 0, _ :: _ => none
  | fuel + 1, first :: rest =>
      (HasDuplicatesFuel fuel rest).map
        (fun b => OccursInList first rest || b)

/-- `OccursInList` decides list membership. -/
theorem occursInList_eq_true_iff {α : Type} [DecidableEq α] (t : α) (l : List α) :
    OccursInList t l = true ↔ t ∈ l := by
  induction l with
  | nil => simp [OccursInList]
  | cons h r ih => simp [OccursInList, ih]

/-- `HasDuplicates` decides the negation of `List.Nodup`. -/
theorem hasDuplicates_eq_true_iff {α : Type} [DecidableEq α] (l : List α) :
    HasDuplicates l = true ↔ ¬ l.Nodup := by
  induction l with
  | nil => simp [HasDuplicates]
  | cons h r ih =>
    simp only [HasDuplicates, Bool.or_eq_true, occursInList_eq_true_iff, ih,
      List.nodup_cons, not_and_or, not_not]

/-- `OccursInList` over an appended list is the disjunction of the two
membership tests. -/
theorem occursInList_append {α : Type} [DecidableEq α] (t : α) (l1 l2 : List α) :
    OccursInList t (l1 ++ l2) = (OccursInList t l1 || OccursInList t l2) := by
  induction l1 with
  | nil => simp [OccursInList]
  | cons h r ih => simp [OccursInList, ih, Bool.or_assoc]

/-- C1: `HasDuplicates L` is `true` if and only if two distinct positions of
`L` hold identical tokens; when all elements are pairwise distinct it is
`false`. -/
theorem C1_hasDuplicates_iff_two_equal_positions {α : Type} [DecidableEq α]
    (l : List α) :
    (HasDuplicates l = true ↔
      ∃ i j : Fin l.length, i ≠ j ∧ l.get i = l.get j) ∧
    (l.Pairwise (· ≠ ·) → HasDuplicates l = false) := by
  constructor
  · rw [hasDuplicates_eq_true_iff, List.nodup_iff_injective_get,
      Function.not_injective_iff]
    constructor
    · rintro ⟨i, j, hget, hne⟩
      exact ⟨i, j, hne, hget⟩
    · rintro ⟨i, j, hne, hget⟩
      exact ⟨i, j, hget, hne⟩
  · intro hp
    rw [Bool.eq_false_iff]
    intro ht
    exact (hasDuplicates_eq_true_iff l).1 ht hp

/-- Witness for C1 at the concrete lists `[0, 1, 0]` and `[0, 1, 2]`. -/
theorem C1_witness :
    HasDuplicates [0, 1, 0] = true ∧ HasDuplicates [0, 1, 2] = false :=
  ⟨(C1_hasDuplicates_iff_two_equal_positions [0, 1, 0]).1.mpr
      ⟨⟨0, by decide⟩, ⟨2, by decide⟩, by decide, by decide⟩,
   (C1_hasDuplicates_iff_two_equal_positions [0, 1, 2]).2 (by decide)⟩

/-- C2: `OccursInList T L` is `true` if and only if `T` equals the element at
some position of `L`; in particular `OccursInList T [T]` is `true`. -/
theorem C2_occursInList_iff_position {α : Type} [DecidableEq α]
    (t : α) (l : List α) :
    (OccursInList t l = true ↔ ∃ i : Fin l.length, t = l.get i) ∧
    OccursInList t [t] = true := by
  constructor
  · rw [occursInList_eq_true_iff, List.mem_iff_get]
    constructor <;> rintro ⟨i, hi⟩ <;> exact ⟨i, hi.symm⟩
  · simp [OccursInList]

/-- Witness for C2 at the concrete token `5` and list `[3, 5]`. -/
theorem C2_witness : OccursInList 5 [3, 5] = true :=
  (C2_occursInList_iff_position 5 [3, 5]).1.mpr ⟨⟨1, by decide⟩, by decide⟩

/-- C3: on a non-empty list, `HasDuplicates (h :: r)` is `true` when
`OccursInList h r` holds, and otherwise equals `HasDuplicates r`. -/
theorem C3_hasDuplicates_cons_recursion {α : Type} [DecidableEq α]
    (h : α) (r : List α) :
    (OccursInList h r = true → HasDuplicates (h :: r) = true) ∧
    (OccursInList h r = false → HasDuplicates (h :: r) = HasDuplicates r) := by
  constructor <;> intro hc <;> simp [HasDuplicates, hc]

/-- Witness for C3 at head `1` with tails `[1]` and `[2]`. -/
theorem C3_witness :
    HasDuplicates [1, 1] = true ∧ HasDuplicates [1, 2] = HasDuplicates [2] :=
  ⟨(C3_hasDuplicates_cons_recursion 1 [1]).1 (by decide),
   (C3_hasDuplicates_cons_recursion 1 [2]).2 (by decide)⟩

/-- C4: `OccursInList` follows the stated algorithm: `false` on the empty
list; on `h :: r` it is `true` when `t = h` and otherwise equals
`OccursInList t r`. -/
theorem C4_occursInList_recursion {α : Type} [DecidableEq α]
    (t h : α) (r : List α) :
    OccursInList t ([] : List α) = false ∧
    (t = h → OccursInList t (h :: r) = true) ∧
    (t ≠ h → OccursInList t (h :: r) = OccursInList t r) := by
  refine ⟨rfl, ?_, ?_⟩ <;> intro hc <;> simp [OccursInList, hc]

/-- Witness for C4 at token `1`, head `1` resp. head `2`, tail `[3]`. -/
theorem C4_witness :
    OccursInList 1 [1, 3] = true ∧ OccursInList 1 [2, 3] = OccursInList 1 [3] :=
  ⟨(C4_occursInList_recursion 1 1 [3]).2.1 rfl,
   (C4_occursInList_recursion 1 2 [3]).2.2 (by decide)⟩

/-- C5: `HasDuplicates` is `false` on the empty list and on every
one-element list. -/
theorem C5_hasDuplicates_nil_singleton {α : Type} [DecidableEq α] (a : α) :
    HasDuplicates ([] : List α) = false ∧ HasDuplicates [a] = false := by
  constructor <;> simp [HasDuplicates, OccursInList]

/-- C6: `HasDuplicates` is invariant under list reversal. -/
theorem C6_hasDuplicates_reverse {α : Type} [DecidableEq α] (l : List α) :
    HasDuplicates l = HasDuplicates l.reverse := by
  have h1 := hasDuplicates_eq_true_iff l
  have h2 := hasDuplicates_eq_true_iff l.reverse
  rw [List.nodup_reverse] at h2
  cases hb : HasDuplicates l <;> cases hb2 : HasDuplicates l.reverse <;>
    simp_all

/-- C7: both recursions are structural over the list: with fuel equal to the
list's length (one unit per recursion level), the fuel-indexed variants
complete and agree with the total functions, for every finite list
including the empty one. -/
theorem C7_recursion_terminates_in_length_levels {α : Type} [DecidableEq α]
    (t : α) (l : List α) :
    OccursInListFuel l.length t l = some (OccursInList t l) ∧
    HasDuplicatesFuel l.length l = some (HasDuplicates l) := by
  constructor
  · induction l with
    | nil => rfl
    | cons h r ih =>
      simp [OccursInListFuel, OccursInList, ih]
  · induction l with
    | nil => rfl
    | cons h r ih =>
      simp [HasDuplicatesFuel, HasDuplicates, ih]

/-- C8: `HasDuplicates` is deterministic: any two evaluations on the same
list yield the same boolean. -/
theorem C8_hasDuplicates_deterministic {α : Type} [DecidableEq α]
    (l : List α) (b1 b2 : Bool)
    (h1 : HasDuplicates l = b1) (h2 : HasDuplicates l = b2) : b1 = b2 :=
  h1.symm.trans h2

/-- Witness for C8: two evaluations on `[0, 0]` agree. -/
theorem C8_witness : (true : Bool) = true :=
  C8_hasDuplicates_deterministic [0, 0] true true (by decide) (by decide)

/-- C9: `HasDuplicates` is invariant under arbitrary permutation of the
list. -/
theorem C9_hasDuplicates_perm {α : Type} [DecidableEq α]
    (l p : List α) (hperm : l.Perm p) :
    HasDuplicates l = HasDuplicates p := by
  have h1 := hasDuplicates_eq_true_iff l
  have h2 := hasDuplicates_eq_true_iff p
  have h3 := hperm.nodup_iff
  cases hb : HasDuplicates l <;> cases hb2 : HasDuplicates p <;> simp_all

/-- Witness for C9 at the permutation `[0, 1, 0] ~ [1, 0, 0]`. -/
theorem C9_witness : HasDuplicates [0, 1, 0] = HasDuplicates [1, 0, 0] :=
  C9_hasDuplicates_perm [0, 1, 0] [1, 0, 0] (List.Perm.swap 0 1 [0]).symm

/-- C10: `OccursInList` distributes over concatenation, and membership is
monotone under extending the list on the right. -/
theorem C10_occursInList_append {α : Type} [DecidableEq α]
    (t : α) (l1 l2 : List α) :
    OccursInList t (l1 ++ l2) = (OccursInList t l1 || OccursInList t l2) ∧
    (OccursInList t l1 = true → OccursInList t (l1 ++ l2) = true) := by
  refine ⟨occursInList_append t l1 l2, ?_⟩
  intro h
  rw [occursInList_append, h, Bool.true_or]

/-- Witness for C10 at token `2` and lists `[2]`, `[3]`. -/
theorem C10_witness : OccursInList 2 ([2] ++ [3]) = true :=
  (C10_occursInList_append 2 [2] [3]).2 (by decide)
